import Mathlib

/-!
Verification of the aws-sso-config tool (configure.py) against its
natural-language specification.  The config store, the profile synthesizer,
the token cache, the device-authorization polling loop, the final persist
step and the environment-variable guard are shallowly embedded below; each
claim of the specification is settled by a theorem about these definitions.
-/

namespace AwsSsoConfig

/-- Settings of one config section, as an ordered list of key-value pairs. -/
abbrev Settings := List (String × String)

/-- A parsed INI config store: section names mapped to settings, in file
order.  Embeds the configparser.ConfigParser state used by
configure_profiles (section names are unique in a parsed store; that fact
appears as a Nodup hypothesis where needed). -/
abbrev Store := List (String × Settings)

/-- First value stored under key k in an association list. -/
def alookup {β : Type} (k : String) : List (String × β) → Option β
  | [] => none
  | p :: rest => if p.1 = k then some p.2 else alookup k rest

/-- Keys of an association list, in order. -/
def keysOf {β : Type} (m : List (String × β)) : List String := m.map Prod.fst

/-- Replace the value of every entry keyed k, keeping its position. -/
def setInPlace {β : Type} (k : String) (v : β) (m : List (String × β)) :
    List (String × β) :=
  m.map (fun p => if p.1 = k then (k, v) else p)

/-- Python dict/configparser assignment d[k] = v on an insertion-ordered
mapping: an existing entry is overwritten in place, a new key is appended
at the end. -/
def dictSet {β : Type} (m : List (String × β)) (k : String) (v : β) :
    List (String × β) :=
  if k ∈ keysOf m then setInPlace k v m else m ++ [(k, v)]

/-- Renders Python str.startswith: character-prefix test. -/
def startsWithStr (s pre : String) : Bool := pre.data.isPrefixOf s.data

/-! ### Profile naming (configure.py, _name_profile and its inner _hyphenate) -/

/-- True when the list starts with an uppercase letter immediately followed
by a lowercase letter. -/
def upLow : List Char → Bool
  | b :: c :: _ => b.isUpper && c.isLower
  | _ => false

/-- True when the list starts with an uppercase letter. -/
def headUpper : List Char → Bool
  | b :: _ => b.isUpper
  | [] => false

/-- Renders the first substitution of _hyphenate, the sub of pattern
([A-Z]+)([A-Z][a-z]) by g1-g2: the replacement re-emits every matched
character and puts one hyphen right before the last uppercase letter of an
uppercase run that is followed by a lowercase letter, so a hyphen lands
exactly between two uppercase letters whose successor is lowercase. -/
def sub1 : List Char → List Char
  | [] => []
  | a :: rest =>
    if a.isUpper && upLow rest then a :: '-' :: sub1 rest
    else a :: sub1 rest

/-- Renders the second substitution of _hyphenate, the sub of pattern
([a-z0-9])([A-Z]) by g1-g2; the scan consumes both matched characters
before continuing, as re.sub does. -/
def sub2 : List Char → List Char
  | a :: b :: rest =>
    if (a.isLower || a.isDigit) && b.isUpper then a :: '-' :: b :: sub2 rest
    else a :: sub2 (b :: rest)
  | l => l

/-- Embeds _hyphenate: both substitutions, then lowercase the whole word. -/
def hyphenate (word : String) : String :=
  String.mk ((sub2 (sub1 word.data)).map Char.toLower)

/-- Embeds _name_profile (the source parameter named namespace appears here
as ns, a Lean keyword otherwise): the hyphen-join of the namespace, the
hyphenated account name and the hyphenated role name, in that order. -/
def name_profile (account_name role_name ns : String) : String :=
  String.intercalate ("-") [ns, hyphenate account_name, hyphenate role_name]

/-- Modelled from the spec word-splitting rule, for comparison with the
embedded code: one pass that inserts a hyphen after a character that sits at
an acronym boundary (uppercase letter, inside an uppercase run of length at
least two, whose following uppercase letter is itself followed by a
lowercase letter) or at a camel-case boundary (lowercase letter or digit
followed by an uppercase letter). -/
def specInsert : List Char → List Char
  | [] => []
  | a :: rest =>
    if (a.isUpper && upLow rest) || ((a.isLower || a.isDigit) && headUpper rest)
    then a :: '-' :: specInsert rest
    else a :: specInsert rest

/-- The word-splitting rule as the spec states it: insert the boundary
hyphens, then lowercase everything. -/
def hyphenateSpec (word : String) : String :=
  String.mk ((specInsert word.data).map Char.toLower)

/-! ### Profile synthesis (configure.py, generate_profiles) -/

/-- One account as returned by the paginated list_accounts call, together
with the roles returned for it by list_account_roles. -/
structure AccountInfo where
  accountId : String
  accountName : String
  roleList : List String

/-- The settings written for one account-role pair (configure.py lines
197 to 203). -/
def profileSettings (access_portal account_id role_name region : String) :
    Settings :=
  [("sso_start_url", access_portal),
   ("sso_account_id", account_id),
   ("sso_role_name", role_name),
   ("sso_region", region),
   ("region", region)]

/-- Embeds generate_profiles: the two nested loops over accounts and their
roles, each iteration assigning into the profiles dict; the network listing
is passed in as the accounts argument. -/
def generate_profiles (accounts : List AccountInfo)
    (access_portal ns region : String) : Store :=
  accounts.foldl (fun profiles acct =>
    acct.roleList.foldl (fun profiles role_name =>
      dictSet profiles ("profile " ++ name_profile acct.accountName role_name ns)
        (profileSettings access_portal acct.accountId role_name region))
      profiles) []

/-! ### Reconciliation (configure.py, configure_profiles lines 86 to 97) -/

/-- Merge step (lines 86 to 87): each synthesized profile is assigned into
the parsed store, overwriting a section of the same name in full. -/
def mergeProfiles (store profiles : Store) : Store :=
  profiles.foldl (fun acc p => dictSet acc p.1 p.2) store

/-- The section survives the prune step (lines 90 to 97) exactly when it is
not an outdated profile: outdated means its name passes the plain
startswith test against the string profile-space-namespace and it is absent
from the synthesized profile names. -/
def keepSection (ns : String) (profiles : Store) (name : String) : Bool :=
  !(startsWithStr name ("profile " ++ ns) && !(decide (name ∈ keysOf profiles)))

/-- Prune step: deleting every outdated section is deleting nothing else,
so the store is filtered by keepSection. -/
def pruneStore (m : Store) (ns : String) (profiles : Store) : Store :=
  m.filter (fun s => keepSection ns profiles s.1)

/-- The in-memory reconciliation of configure_profiles: merge the
synthesized profiles into the parsed store, then prune outdated namespaced
sections. -/
def reconcile (store : Store) (ns : String) (profiles : Store) : Store :=
  pruneStore (mergeProfiles store profiles) ns profiles

/-! ### Device-authorization polling (configure.py, login lines 133 to 144) -/

/-- Outcome of one create_token call: the distinguished
AuthorizationPendingException, a successful token response, or any other
raised provider error. -/
inductive CreateTokenOutcome where
  | authorizationPending
  | success (accessToken : String) (expiresIn : Nat)
  | otherError (exc : String)
deriving DecidableEq

/-- Result of running the polling loop against a finite trace of provider
responses: a token (with the seconds slept so far), a propagated fatal
error (with the seconds slept so far), or stillPolling when the trace ran
out while the loop was still going - the loop itself never stops on its
own. -/
inductive PollResult where
  | token (accessToken : String) (expiresIn : Nat) (slept : Nat)
  | fatal (exc : String) (slept : Nat)
  | stillPolling (slept : Nat)
deriving DecidableEq

/-- Embeds the while-True loop of login: a pending outcome sleeps one
second and retries, a success breaks out with the token, and any other
exception propagates immediately. -/
def pollLoop : List CreateTokenOutcome → Nat → PollResult
  | [], slept => .stillPolling slept
  | .authorizationPending :: rest, slept => pollLoop rest (slept + 1)
  | .success t e :: _, slept => .token t e slept
  | .otherError exc :: _, slept => .fatal exc slept

/-! ### Token cache (configure.py, _get_cached_token lines 151 to 158) -/

/-- State of the cache file as json.load sees it: absent, content that
raises when parsed or when its fields are read or compared (invalid JSON,
wrongly typed fields), or a parsed record whose two fields may each be
missing. -/
inductive CacheFile where
  | missing
  | malformed
  | record (expires : Option Int) (token : Option String)
deriving DecidableEq

/-- Observable result of _get_cached_token: a returned token, a returned
None, or a propagated exception. -/
inductive LoadResult where
  | found (token : String)
  | absent
  | raised
deriving DecidableEq

/-- Embeds _get_cached_token: FileNotFoundError and AssertionError are
caught and yield None; a parse failure, a missing expires field (KeyError
before the assert), or a missing token field (KeyError after a passing
assert) propagate; the assert compares expires strictly against now. -/
def get_cached_token : CacheFile → Int → LoadResult
  | .missing, _ => .absent
  | .malformed, _ => .raised
  | .record none _, _ => .raised
  | .record (some expires) tok, now =>
    if expires > now then
      match tok with
      | some t => .found t
      | none => .raised
    else .absent

/-! ### Persist step (configure.py, configure_profiles lines 99 to 101) -/

/-- A flat file system: paths mapped to file contents. -/
abbrev FileSys := List (String × String)

/-- One write attempt: it either runs to completion or the process is
interrupted after k characters have been written. -/
inductive WriteAttempt where
  | ok
  | failAfter (k : Nat)
deriving DecidableEq

/-- Embeds the persist step config_path.open, w, then aws_config.write:
opening with mode w truncates the file at once, and the serialized text is
then written sequentially, so an interrupted write leaves exactly the
prefix written so far on disk.  The Bool records whether the write
completed. -/
def persistStore (fs : FileSys) (path content : String) :
    WriteAttempt → FileSys × Bool
  | .ok => (dictSet fs path content, true)
  | .failAfter k => (dictSet fs path (String.mk (content.data.take k)), false)

/-! ### Environment guard (configure.py, unset_aws_env lines 229 to 244) -/

/-- An environment: variable names mapped to values. -/
abbrev Env := List (String × String)

/-- The variables unset_aws_env collects: name starts with AWS and is not
AWS_SDK_LOAD_CONFIG. -/
def isAwsVar (name : String) : Bool :=
  startsWithStr name ("AWS") && !(decide (name = "AWS_SDK_LOAD_CONFIG"))

/-- How the body wrapped by the context manager finishes: normally with a
value, or by raising; either way it may have its own effect on the
environment, returned alongside. -/
inductive BodyOutcome (α : Type) where
  | ok (value : α) (env : Env)
  | raised (exc : String) (env : Env)
deriving DecidableEq

/-- Embeds the unset_aws_env context manager: the AWS variables are popped
and saved, the body runs in the scrubbed environment, and the restore loop
sits after a bare yield with no try-finally, so it runs only when the body
returns normally; when the body raises, the exception is rethrown at the
yield and the restore loop is skipped. -/
def unset_aws_env {α : Type} (env : Env) (body : Env → BodyOutcome α) :
    BodyOutcome α :=
  let saved := env.filter (fun p => isAwsVar p.1)
  let scrubbed := env.filter (fun p => !isAwsVar p.1)
  match body scrubbed with
  | .ok v env2 => .ok v (saved.foldl (fun e p => dictSet e p.1 p.2) env2)
  | .raised exc env2 => .raised exc env2

/-! ### Association-list lemmas -/

theorem alookup_eq_none_iff {β : Type} (k : String) (m : List (String × β)) :
    alookup k m = none ↔ k ∉ keysOf m := by
  induction m with
  | nil => simp [alookup, keysOf]
  | cons p rest ih =>
    by_cases h : p.1 = k
    · simp [alookup, keysOf, h]
    · simp [alookup, keysOf, h, ih, Ne.symm h]

theorem mem_keysOf_of_alookup {β : Type} {k : String} {m : List (String × β)}
    {v : β} (h : alookup k m = some v) : k ∈ keysOf m := by
  by_contra hmem
  rw [← alookup_eq_none_iff] at hmem
  rw [hmem] at h
  exact Option.noConfusion h

theorem keysOf_setInPlace {β : Type} (k : String) (v : β)
    (m : List (String × β)) : keysOf (setInPlace k v m) = keysOf m := by
  induction m with
  | nil => rfl
  | cons p rest ih =>
    by_cases h : p.1 = k
    · simp [setInPlace, keysOf, h] at ih ⊢
      exact ih
    · simp [setInPlace, keysOf, h] at ih ⊢
      exact ih

theorem keysOf_cons {β : Type} (p : String × β) (rest : List (String × β)) :
    keysOf (p :: rest) = p.1 :: keysOf rest := rfl

theorem alookup_setInPlace_self {β : Type} {k : String} (v : β)
    {m : List (String × β)} (h : k ∈ keysOf m) :
    alookup k (setInPlace k v m) = some v := by
  induction m with
  | nil => simp [keysOf] at h
  | cons p rest ih =>
    by_cases hp : p.1 = k
    · simp [setInPlace, alookup, hp]
    · rw [keysOf_cons] at h
      have h' : k ∈ keysOf rest := by
        rcases List.mem_cons.mp h with h1 | h2
        · exact absurd h1.symm hp
        · exact h2
      simp only [setInPlace, List.map, if_neg hp, alookup, hp, ite_false]
      exact ih h'

theorem alookup_setInPlace_ne {β : Type} {k' k : String} (v : β)
    (m : List (String × β)) (h : k' ≠ k) :
    alookup k' (setInPlace k v m) = alookup k' m := by
  induction m with
  | nil => rfl
  | cons p rest ih =>
    by_cases hp : p.1 = k
    · have : k ≠ k' := Ne.symm h
      simp [setInPlace, alookup, hp, this] at ih ⊢
      exact ih
    · by_cases hp' : p.1 = k'
      · simp [setInPlace, alookup, hp, hp', h]
      · simp [setInPlace, alookup, hp, hp'] at ih ⊢
        exact ih

theorem alookup_append {β : Type} (k : String) (m l : List (String × β)) :
    alookup k (m ++ l) =
      match alookup k m with
      | some v => some v
      | none => alookup k l := by
  induction m with
  | nil => simp [alookup]
  | cons p rest ih =>
    by_cases hp : p.1 = k
    · simp [alookup, hp]
    · simp [alookup, hp, ih]

theorem alookup_dictSet {β : Type} (k' k : String) (v : β)
    (m : List (String × β)) :
    alookup k' (dictSet m k v) = if k' = k then some v else alookup k' m := by
  by_cases hmem : k ∈ keysOf m
  · by_cases hk : k' = k
    · subst hk
      simp [dictSet, hmem, alookup_setInPlace_self v hmem]
    · simp [dictSet, hmem, hk, alookup_setInPlace_ne v m hk]
  · by_cases hk : k' = k
    · subst hk
      have hnone : alookup k' m = none := (alookup_eq_none_iff k' m).mpr hmem
      simp [dictSet, hmem, alookup_append, hnone, alookup]
    · simp only [dictSet, if_neg hmem, alookup_append]
      cases h : alookup k' m with
      | some v' => simp [hk]
      | none => simp [alookup, hk, Ne.symm hk]

theorem keysOf_append {β : Type} (m l : List (String × β)) :
    keysOf (m ++ l) = keysOf m ++ keysOf l := by
  simp [keysOf]

theorem keysOf_dictSet {β : Type} (k : String) (v : β)
    (m : List (String × β)) :
    keysOf (dictSet m k v) =
      if k ∈ keysOf m then keysOf m else keysOf m ++ [k] := by
  by_cases hmem : k ∈ keysOf m
  · simp [dictSet, hmem, keysOf_setInPlace]
  · simp only [dictSet, if_neg hmem, keysOf_append]
    rfl

theorem mem_keysOf_dictSet {β : Type} (k' k : String) (v : β)
    (m : List (String × β)) :
    k' ∈ keysOf (dictSet m k v) ↔ k' ∈ keysOf m ∨ k' = k := by
  rw [keysOf_dictSet]
  by_cases hmem : k ∈ keysOf m
  · simp only [if_pos hmem]
    constructor
    · exact fun h => Or.inl h
    · rintro (h | rfl)
      · exact h
      · exact hmem
  · simp [if_neg hmem]

theorem nodup_keysOf_dictSet {β : Type} {k : String} {v : β}
    {m : List (String × β)} (h : (keysOf m).Nodup) :
    (keysOf (dictSet m k v)).Nodup := by
  rw [keysOf_dictSet]
  by_cases hmem : k ∈ keysOf m
  · simpa [hmem] using h
  · simp only [if_neg hmem]
    refine List.Nodup.append h (List.nodup_singleton k) ?_
    intro a ha hb
    rw [List.mem_singleton] at hb
    subst hb
    exact hmem ha

theorem alookup_of_mem_nodup {β : Type} {m : List (String × β)}
    (h : (keysOf m).Nodup) {p : String × β} (hp : p ∈ m) :
    alookup p.1 m = some p.2 := by
  induction m with
  | nil => cases hp
  | cons q rest ih =>
    rcases List.mem_cons.mp hp with rfl | hp'
    · simp [alookup]
    · rw [keysOf_cons] at h
      have hq : q.1 ∉ keysOf rest := (List.nodup_cons.mp h).1
      have hrest : (keysOf rest).Nodup := (List.nodup_cons.mp h).2
      by_cases hqp : q.1 = p.1
      · exfalso
        exact hq (hqp ▸ (List.mem_map.mpr ⟨p, hp', rfl⟩))
      · simp [alookup, hqp, ih hrest hp']

theorem keysOf_filter {β : Type} (p : String → Bool) (m : List (String × β)) :
    keysOf (m.filter (fun s => p s.1)) = (keysOf m).filter p := by
  induction m with
  | nil => rfl
  | cons q rest ih =>
    by_cases hq : p q.1
    · simp [keysOf, List.filter, hq] at ih ⊢
      exact ih
    · simp [keysOf, List.filter, hq] at ih ⊢
      exact ih

theorem alookup_filter_of_pred {β : Type} (p : String → Bool)
    (m : List (String × β)) {k : String} (hk : p k = true) :
    alookup k (m.filter (fun s => p s.1)) = alookup k m := by
  induction m with
  | nil => rfl
  | cons q rest ih =>
    by_cases hq : q.1 = k
    · subst hq
      simp [List.filter, hk, alookup]
    · by_cases hpq : p q.1
      · simp [List.filter, hpq, alookup, hq, ih]
      · simp [List.filter, hpq, alookup, hq, ih]

/-! ### Merge and prune lemmas -/

theorem mergeProfiles_cons (store : Store) (p : String × Settings)
    (ps : Store) :
    mergeProfiles store (p :: ps) = mergeProfiles (dictSet store p.1 p.2) ps :=
  rfl

theorem alookup_mergeProfiles (store profiles : Store) (k : String)
    (h : (keysOf profiles).Nodup) :
    alookup k (mergeProfiles store profiles) =
      match alookup k profiles with
      | some v => some v
      | none => alookup k store := by
  induction profiles generalizing store with
  | nil => simp [mergeProfiles, alookup]
  | cons p ps ih =>
    rw [keysOf_cons] at h
    have hp : p.1 ∉ keysOf ps := (List.nodup_cons.mp h).1
    have hps : (keysOf ps).Nodup := (List.nodup_cons.mp h).2
    rw [mergeProfiles_cons, ih _ hps]
    by_cases hk : k = p.1
    · subst hk
      have hnone : alookup p.1 ps = none := (alookup_eq_none_iff p.1 ps).mpr hp
      simp [hnone, alookup_dictSet, alookup]
    · cases hlk : alookup k ps with
      | some v => simp [alookup, hlk, Ne.symm hk]
      | none => simp [alookup, hlk, Ne.symm hk, alookup_dictSet, hk]

theorem nodup_keysOf_mergeProfiles (store profiles : Store)
    (h : (keysOf store).Nodup) :
    (keysOf (mergeProfiles store profiles)).Nodup := by
  induction profiles generalizing store with
  | nil => exact h
  | cons p ps ih => exact ih _ (nodup_keysOf_dictSet h)

theorem mem_keysOf_mergeProfiles (store profiles : Store) (k : String) :
    k ∈ keysOf (mergeProfiles store profiles) ↔
      k ∈ keysOf store ∨ k ∈ keysOf profiles := by
  induction profiles generalizing store with
  | nil => simp [mergeProfiles, keysOf]
  | cons p ps ih =>
    rw [mergeProfiles_cons, ih, mem_keysOf_dictSet, keysOf_cons]
    simp [List.mem_cons]
    tauto

theorem keepSection_of_mem {k : String} {profiles : Store} (ns : String)
    (h : k ∈ keysOf profiles) : keepSection ns profiles k = true := by
  simp [keepSection, h]

theorem keepSection_of_not_starts {k ns : String} (profiles : Store)
    (h : startsWithStr k ("profile " ++ ns) = false) :
    keepSection ns profiles k = true := by
  simp [keepSection, h]

theorem mem_of_keepSection {k ns : String} {profiles : Store}
    (h1 : keepSection ns profiles k = true)
    (h2 : startsWithStr k ("profile " ++ ns) = true) :
    k ∈ keysOf profiles := by
  simp [keepSection, h2] at h1
  exact h1

/-- C1: after reconcile, the namespaced sections are exactly the synthesized
entry names, without duplicates, and every section whose name does not start
with the namespace prefix keeps exactly its old settings.  Hypotheses record
what the pipeline guarantees: every synthesized name carries the prefix
profile-space-namespace (as generate_profiles produces), and section names
are unique in a parsed store as in a dict. -/
theorem C1_reconcile_namespaced_exact (store profiles : Store) (ns : String)
    (hP : (keysOf profiles).all
      (fun k => startsWithStr k ("profile " ++ ns)) = true)
    (hS : (keysOf store).Nodup) (hQ : (keysOf profiles).Nodup) :
    (keysOf (reconcile store ns profiles)).Nodup ∧
    (∀ k, (k ∈ keysOf (reconcile store ns profiles) ∧
        startsWithStr k ("profile " ++ ns) = true) ↔ k ∈ keysOf profiles) ∧
    (∀ k, startsWithStr k ("profile " ++ ns) = false →
        alookup k (reconcile store ns profiles) = alookup k store) := by
  have hP' : ∀ k ∈ keysOf profiles, startsWithStr k ("profile " ++ ns) = true :=
    List.all_eq_true.mp hP
  refine ⟨?_, ?_, ?_⟩
  · rw [reconcile, pruneStore, keysOf_filter]
    exact List.Nodup.filter _ (nodup_keysOf_mergeProfiles store profiles hS)
  · intro k
    constructor
    · rintro ⟨hmem, hstart⟩
      rw [reconcile, pruneStore, keysOf_filter, List.mem_filter] at hmem
      exact mem_of_keepSection hmem.2 hstart
    · intro hmem
      refine ⟨?_, hP' k hmem⟩
      rw [reconcile, pruneStore, keysOf_filter, List.mem_filter]
      exact ⟨(mem_keysOf_mergeProfiles store profiles k).mpr (Or.inr hmem),
        keepSection_of_mem ns hmem⟩
  · intro k hk
    rw [reconcile, pruneStore,
      alookup_filter_of_pred _ _ (keepSection_of_not_starts profiles hk),
      alookup_mergeProfiles store profiles k hQ]
    have hnone : alookup k profiles = none := by
      rw [alookup_eq_none_iff]
      intro hmem
      rw [hP' k hmem] at hk
      exact Bool.noConfusion hk
    rw [hnone]

/-- C1 witness: a concrete store with a foreign section and a stale
namespaced section, reconciled against one synthesized profile. -/
theorem C1_reconcile_namespaced_exact_witness :
    ((keysOf [("profile sso-sandbox-admin", [("k", "v")])]).all
      (fun k => startsWithStr k ("profile " ++ "sso")) = true) ∧
    (keysOf [("profile other-thing", [("a", "b")]),
      ("profile sso-old", [("c", "d")])]).Nodup ∧
    (keysOf [("profile sso-sandbox-admin", [("k", "v")])]).Nodup ∧
    alookup ("profile other-thing")
      (reconcile [("profile other-thing", [("a", "b")]),
        ("profile sso-old", [("c", "d")])] ("sso")
        [("profile sso-sandbox-admin", [("k", "v")])]) =
      alookup ("profile other-thing")
        [("profile other-thing", [("a", "b")]),
          ("profile sso-old", [("c", "d")])] ∧
    ("profile sso-sandbox-admin") ∈
      keysOf (reconcile [("profile other-thing", [("a", "b")]),
        ("profile sso-old", [("c", "d")])] ("sso")
        [("profile sso-sandbox-admin", [("k", "v")])]) :=
  ⟨by decide, by decide, by decide,
    (C1_reconcile_namespaced_exact
      [("profile other-thing", [("a", "b")]), ("profile sso-old", [("c", "d")])]
      [("profile sso-sandbox-admin", [("k", "v")])] ("sso")
      (by decide) (by decide) (by decide)).2.2 ("profile other-thing") (by decide),
    (((C1_reconcile_namespaced_exact
      [("profile other-thing", [("a", "b")]), ("profile sso-old", [("c", "d")])]
      [("profile sso-sandbox-admin", [("k", "v")])] ("sso")
      (by decide) (by decide) (by decide)).2.1 ("profile sso-sandbox-admin")).mpr
      (by decide)).1⟩

/-- C10: the prune step classifies a section as namespaced by a plain
startswith test with no hyphen boundary, so any section whose name begins
with the literal characters profile-space-namespace is deleted whenever it
is absent from the synthesized names. -/
theorem C10_prune_plain_string_test (store profiles : Store) (ns k : String)
    (hk : startsWithStr k ("profile " ++ ns) = true)
    (hnot : k ∉ keysOf profiles) :
    k ∉ keysOf (reconcile store ns profiles) := by
  intro hmem
  rw [reconcile, pruneStore, keysOf_filter, List.mem_filter] at hmem
  exact hnot (mem_of_keepSection hmem.2 hk)

/-- C10 witness: under namespace sso, the section profile ssoextra, whose
name continues the namespace with letters rather than a hyphen, is pruned. -/
theorem C10_prune_plain_string_test_witness :
    startsWithStr ("profile ssoextra") ("profile " ++ "sso") = true ∧
    ("profile ssoextra") ∉ keysOf [("profile sso-a-b", ([] : Settings))] ∧
    ("profile ssoextra") ∉
      keysOf (reconcile [("profile ssoextra", [("x", "y")])] ("sso")
        [("profile sso-a-b", [])]) :=
  ⟨by decide, by decide,
    C10_prune_plain_string_test [("profile ssoextra", [("x", "y")])]
      [("profile sso-a-b", [])] ("sso") ("profile ssoextra")
      (by decide) (by decide)⟩

/-! ### Idempotence of reconciliation -/

theorem setInPlace_eq_self {β : Type} {m : List (String × β)} {k : String}
    {v : β} (h : ∀ p ∈ m, p.1 = k → p.2 = v) : setInPlace k v m = m := by
  induction m with
  | nil => rfl
  | cons q rest ih =>
    have hrest : setInPlace k v rest = rest :=
      ih (fun p hp => h p (List.mem_cons_of_mem q hp))
    by_cases hq : q.1 = k
    · have hv : q.2 = v := h q (List.mem_cons_self q rest) hq
      have hkv : (k, v) = q := by rw [← hq, ← hv]
      show (if q.1 = k then (k, v) else q) ::
        List.map (fun p => if p.1 = k then (k, v) else p) rest = q :: rest
      rw [if_pos hq]
      rw [show List.map (fun p => if p.1 = k then (k, v) else p) rest = rest
        from hrest]
      rw [hkv]
    · show (if q.1 = k then (k, v) else q) ::
        List.map (fun p => if p.1 = k then (k, v) else p) rest = q :: rest
      rw [if_neg hq]
      rw [show List.map (fun p => if p.1 = k then (k, v) else p) rest = rest
        from hrest]

theorem dictSet_eq_self {β : Type} {m : List (String × β)} {k : String}
    {v : β} (hmem : k ∈ keysOf m) (hval : ∀ p ∈ m, p.1 = k → p.2 = v) :
    dictSet m k v = m := by
  unfold dictSet
  rw [if_pos hmem]
  exact setInPlace_eq_self hval

theorem mergeProfiles_eq_self {R profiles : Store}
    (h : ∀ p ∈ profiles, dictSet R p.1 p.2 = R) :
    mergeProfiles R profiles = R := by
  induction profiles with
  | nil => rfl
  | cons p ps ih =>
    rw [mergeProfiles_cons, h p (List.mem_cons_self p ps)]
    exact ih (fun q hq => h q (List.mem_cons_of_mem p hq))

/-- C2: reconcile is idempotent on the store structure: running the
merge-and-prune pass a second time on its own output, with the same
synthesized profiles, returns that output unchanged, section for section
and setting for setting.  The hypotheses record that section names are
unique in a parsed store and in the synthesized dict. -/
theorem C2_reconcile_idempotent (store profiles : Store) (ns : String)
    (hS : (keysOf store).Nodup) (hQ : (keysOf profiles).Nodup) :
    reconcile (reconcile store ns profiles) ns profiles =
      reconcile store ns profiles := by
  have hMnodup : (keysOf (mergeProfiles store profiles)).Nodup :=
    nodup_keysOf_mergeProfiles store profiles hS
  have hstep : ∀ p ∈ profiles,
      dictSet (reconcile store ns profiles) p.1 p.2 =
        reconcile store ns profiles := by
    intro p hp
    have hlookM : alookup p.1 (mergeProfiles store profiles) = some p.2 := by
      rw [alookup_mergeProfiles store profiles p.1 hQ,
        alookup_of_mem_nodup hQ hp]
    have hkeep : keepSection ns profiles p.1 = true :=
      keepSection_of_mem ns (List.mem_map.mpr ⟨p, hp, rfl⟩)
    have hlookR : alookup p.1 (reconcile store ns profiles) = some p.2 := by
      rw [reconcile, pruneStore, alookup_filter_of_pred _ _ hkeep]
      exact hlookM
    refine dictSet_eq_self (mem_keysOf_of_alookup hlookR) ?_
    intro q hq hq1
    have hqM : q ∈ mergeProfiles store profiles := by
      rw [reconcile, pruneStore] at hq
      exact List.mem_of_mem_filter hq
    have h1 : alookup q.1 (mergeProfiles store profiles) = some q.2 :=
      alookup_of_mem_nodup hMnodup hqM
    rw [hq1, hlookM] at h1
    exact (Option.some.inj h1).symm
  have hmerge : mergeProfiles (reconcile store ns profiles) profiles =
      reconcile store ns profiles := mergeProfiles_eq_self hstep
  have hprune : pruneStore (reconcile store ns profiles) ns profiles =
      reconcile store ns profiles := by
    rw [pruneStore]
    apply List.filter_eq_self.mpr
    intro q hq
    rw [reconcile, pruneStore] at hq
    simpa using List.of_mem_filter hq
  show pruneStore (mergeProfiles (reconcile store ns profiles) profiles)
      ns profiles = reconcile store ns profiles
  rw [hmerge, hprune]

/-- C2 witness: idempotence evaluated on a concrete store holding a foreign
section and a stale namespaced section. -/
theorem C2_reconcile_idempotent_witness :
    (keysOf [("profile other-thing", [("a", "b")]),
      ("profile sso-stale", [("c", "d")])]).Nodup ∧
    (keysOf [("profile sso-sandbox-admin", [("k", "v")])]).Nodup ∧
    reconcile (reconcile [("profile other-thing", [("a", "b")]),
        ("profile sso-stale", [("c", "d")])] ("sso")
        [("profile sso-sandbox-admin", [("k", "v")])]) ("sso")
      [("profile sso-sandbox-admin", [("k", "v")])] =
      reconcile [("profile other-thing", [("a", "b")]),
        ("profile sso-stale", [("c", "d")])] ("sso")
        [("profile sso-sandbox-admin", [("k", "v")])] :=
  ⟨by decide, by decide,
    C2_reconcile_idempotent
      [("profile other-thing", [("a", "b")]), ("profile sso-stale", [("c", "d")])]
      [("profile sso-sandbox-admin", [("k", "v")])] ("sso")
      (by decide) (by decide)⟩

/-! ### Character-class lemmas -/

theorem isUpper_toNat (c : Char) :
    c.isUpper = decide (65 ≤ c.toNat ∧ c.toNat ≤ 90) := by
  simp [Char.isUpper, UInt32.le_def, BitVec.le_def, Char.toNat, UInt32.toNat]

theorem isLower_toNat (c : Char) :
    c.isLower = decide (97 ≤ c.toNat ∧ c.toNat ≤ 122) := by
  simp [Char.isLower, UInt32.le_def, BitVec.le_def, Char.toNat, UInt32.toNat]

theorem isDigit_toNat (c : Char) :
    c.isDigit = decide (48 ≤ c.toNat ∧ c.toNat ≤ 57) := by
  simp [Char.isDigit, UInt32.le_def, BitVec.le_def, Char.toNat, UInt32.toNat]

theorem lowdig_of_upper {c : Char} (h : c.isUpper = true) :
    (c.isLower || c.isDigit) = false := by
  rw [isUpper_toNat] at h
  rw [isLower_toNat, isDigit_toNat]
  simp at h ⊢
  omega

theorem toNat_ofNat_valid {m : Nat} (h : m < 55296) :
    (Char.ofNat m).toNat = m := by
  rw [Char.ofNat, dif_pos (Or.inl h)]
  simp [Char.ofNatAux, Char.toNat, UInt32.toNat]

theorem toLower_isUpper (c : Char) : (Char.toLower c).isUpper = false := by
  rw [Char.toLower]
  by_cases h : c.toNat ≥ 65 ∧ c.toNat ≤ 90
  · rw [if_pos h, isUpper_toNat, toNat_ofNat_valid (by omega)]
    simp
    omega
  · rw [if_neg h, isUpper_toNat]
    simp
    omega

/-! ### The two substitutions agree with the single-pass spec rule -/

theorem sub2_cons_upper {b : Char} (h : b.isUpper = true) (T : List Char) :
    sub2 (b :: T) = b :: sub2 T := by
  cases T with
  | nil => rfl
  | cons x xs =>
    have hb : (b.isLower || b.isDigit) = false := lowdig_of_upper h
    simp only [sub2, hb, Bool.false_and, Bool.false_eq_true, if_false]

theorem sub2_cons_dash (T : List Char) : sub2 ('-' :: T) = '-' :: sub2 T := by
  cases T with
  | nil => rfl
  | cons x xs =>
    have hd : (('-' : Char).isLower || ('-' : Char).isDigit) = false := by decide
    simp only [sub2, hd, Bool.false_and, Bool.false_eq_true, if_false]

theorem sub2_sub1_eq_specInsert (l : List Char) :
    sub2 (sub1 l) = specInsert l := by
  induction l with
  | nil => rfl
  | cons a rest ih =>
    by_cases h1 : (a.isUpper && upLow rest) = true
    · have ha : a.isUpper = true := ((Bool.and_eq_true _ _).mp h1).1
      have had : (a.isLower || a.isDigit) = false := lowdig_of_upper ha
      have e1 : sub1 (a :: rest) = a :: '-' :: sub1 rest := by
        simp only [sub1, h1, if_true]
      have e2 : sub2 (a :: '-' :: sub1 rest) = a :: sub2 ('-' :: sub1 rest) := by
        simp only [sub2, had, Bool.false_and, Bool.false_eq_true, if_false]
      rw [e1, e2, sub2_cons_dash, ih]
      simp only [specInsert, h1, Bool.true_or, if_true]
    · have h1' : (a.isUpper && upLow rest) = false := by
        simpa using h1
      have e1 : sub1 (a :: rest) = a :: sub1 rest := by
        simp only [sub1, h1', Bool.false_eq_true, if_false]
      cases rest with
      | nil =>
        simp only [e1, sub1, sub2, specInsert, h1', headUpper, Bool.and_false,
          Bool.or_self, Bool.false_eq_true, if_false]
      | cons b rest' =>
        by_cases h2 : (b.isUpper && upLow rest') = true
        · have hb : b.isUpper = true := ((Bool.and_eq_true _ _).mp h2).1
          have e2 : sub1 (b :: rest') = b :: '-' :: sub1 rest' := by
            simp only [sub1, h2, if_true]
          have e3 : specInsert (b :: rest') = b :: '-' :: specInsert rest' := by
            simp only [specInsert, h2, Bool.true_or, if_true]
          have ihx : sub2 (sub1 rest') = specInsert rest' := by
            have ih' := ih
            rw [e2, sub2_cons_upper hb, sub2_cons_dash, e3] at ih'
            simp only [List.cons.injEq, true_and] at ih'
            exact ih'
          by_cases t2 : ((a.isLower || a.isDigit) && b.isUpper) = true
          · have e4 : sub2 (a :: b :: '-' :: sub1 rest') =
                a :: '-' :: b :: sub2 ('-' :: sub1 rest') := by
              simp only [sub2, t2, if_true]
            rw [e1, e2, e4, sub2_cons_dash, ihx]
            have hcond : ((a.isUpper && upLow (b :: rest')) ||
                ((a.isLower || a.isDigit) && headUpper (b :: rest'))) = true := by
              simp [headUpper, t2]
            simp only [specInsert, hcond, if_true, h2, Bool.true_or]
          · have t2' : ((a.isLower || a.isDigit) && b.isUpper) = false := by
              simpa using t2
            have e4 : sub2 (a :: b :: '-' :: sub1 rest') =
                a :: sub2 (b :: '-' :: sub1 rest') := by
              simp only [sub2, t2', Bool.false_eq_true, if_false]
            rw [e1, e2, e4, ← e2, ih]
            have hcond : ((a.isUpper && upLow (b :: rest')) ||
                ((a.isLower || a.isDigit) && headUpper (b :: rest'))) = false := by
              simp only [headUpper, h1', t2', Bool.or_self]
            simp only [specInsert, hcond, Bool.false_eq_true, if_false]
        · have h2' : (b.isUpper && upLow rest') = false := by
            simpa using h2
          have e2 : sub1 (b :: rest') = b :: sub1 rest' := by
            simp only [sub1, h2', Bool.false_eq_true, if_false]
          by_cases t2 : ((a.isLower || a.isDigit) && b.isUpper) = true
          · have hb : b.isUpper = true := ((Bool.and_eq_true _ _).mp t2).2
            have e4 : sub2 (a :: b :: sub1 rest') =
                a :: '-' :: b :: sub2 (sub1 rest') := by
              simp only [sub2, t2, if_true]
            rw [e1, e2, e4, ← sub2_cons_upper hb, ← e2, ih]
            have hcond : ((a.isUpper && upLow (b :: rest')) ||
                ((a.isLower || a.isDigit) && headUpper (b :: rest'))) = true := by
              simp [headUpper, t2]
            simp only [specInsert, hcond, if_true]
          · have t2' : ((a.isLower || a.isDigit) && b.isUpper) = false := by
              simpa using t2
            have e4 : sub2 (a :: b :: sub1 rest') =
                a :: sub2 (b :: sub1 rest') := by
              simp only [sub2, t2', Bool.false_eq_true, if_false]
            rw [e1, e2, e4, ← e2, ih]
            have hcond : ((a.isUpper && upLow (b :: rest')) ||
                ((a.isLower || a.isDigit) && headUpper (b :: rest'))) = false := by
              simp only [headUpper, h1', t2', Bool.or_self]
            simp only [specInsert, hcond, Bool.false_eq_true, if_false]

/-- C5: the hyphenation function agrees, on every string, with the single
pass that marks the spec's two boundary kinds (acronym boundary between an
uppercase run and its trailing uppercase-lowercase pair, camel-case
boundary between a lowercase letter or digit and an uppercase letter) and
then lowercases; the three stated examples hold; and the entry name is the
namespace, the hyphenated resource name and the hyphenated role name joined
by hyphens in that fixed order. -/
theorem C5_hyphenation_rule (s a r n : String) :
    hyphenate s = hyphenateSpec s ∧
    name_profile a r n = n ++ "-" ++ hyphenate a ++ "-" ++ hyphenate r ∧
    hyphenate ("MyAccount") = "my-account" ∧
    hyphenate ("HTTPServer") = "http-server" ∧
    hyphenate ("already-lower") = "already-lower" := by
  refine ⟨?_, ?_, by decide, by decide, by decide⟩
  · rw [hyphenate, hyphenateSpec, sub2_sub1_eq_specInsert]
  · simp [name_profile, String.intercalate, String.intercalate.go,
      String.append_assoc]

/-- C8 counterexample: the namespace is joined into the entry name verbatim,
so an uppercase namespace yields an entry name that does contain uppercase
letters, refuting the claim for every namespace. -/
theorem C8_counterexample_uppercase_namespace :
    name_profile ("A") ("B") ("SSO") = "SSO-a-b" ∧
    startsWithStr (name_profile ("A") ("B") ("SSO")) ("SSO" ++ "-") = true ∧
    ((name_profile ("A") ("B") ("SSO")).data.all (fun c => !c.isUpper))
      = false := by
  decide

theorem hyphenate_all_not_upper (s : String) :
    (hyphenate s).data.all (fun c => !c.isUpper) = true := by
  apply List.all_eq_true.mpr
  intro c hc
  have hc' : c ∈ (sub2 (sub1 s.data)).map Char.toLower := hc
  rcases List.mem_map.mp hc' with ⟨d, _, rfl⟩
  simp [toLower_isUpper]

/-- C8 (amended): every synthesized entry name, for every namespace, begins
with the namespace followed by a hyphen; and whenever the namespace itself
contains no uppercase letter (as the default namespace sso), the whole
entry name contains no uppercase letter - the namespace part is joined
verbatim while both name parts are lowercased. -/
theorem C8_entry_name_prefix_lowercase (n a r : String) :
    (∃ rest, name_profile a r n = n ++ "-" ++ rest) ∧
    (n.data.all (fun c => !c.isUpper) = true →
      (name_profile a r n).data.all (fun c => !c.isUpper) = true) := by
  have hdef : name_profile a r n =
      n ++ "-" ++ (hyphenate a ++ ("-" ++ hyphenate r)) := by
    simp [name_profile, String.intercalate, String.intercalate.go,
      String.append_assoc]
  refine ⟨⟨hyphenate a ++ ("-" ++ hyphenate r), hdef⟩, ?_⟩
  intro hn
  rw [hdef]
  simp only [String.data_append, List.all_append, Bool.and_eq_true]
  exact ⟨⟨hn, by decide⟩, hyphenate_all_not_upper a, by decide,
    hyphenate_all_not_upper r⟩

/-- C8 witness: the unconditional prefix conjunct evaluated at the uppercase
namespace SSO, and the no-uppercase conjunct at the default namespace sso
with the documented sample account and role. -/
theorem C8_entry_name_prefix_lowercase_witness :
    ("sso" : String).data.all (fun c => !c.isUpper) = true ∧
    (∃ rest, name_profile ("Sandbox") ("Admin") ("SSO") = "SSO" ++ "-" ++ rest) ∧
    (name_profile ("Sandbox") ("Admin") ("sso")).data.all
      (fun c => !c.isUpper) = true :=
  ⟨by decide,
    (C8_entry_name_prefix_lowercase ("SSO") ("Sandbox") ("Admin")).1,
    (C8_entry_name_prefix_lowercase ("sso") ("Sandbox") ("Admin")).2
      (by decide)⟩

/-- C9: when two distinct resource tuples synthesize to the same entry name,
the later one in enumeration order silently overwrites the earlier: the
output mapping holds exactly one entry under that name, carrying the later
tuple's settings, and generate_profiles returns normally. -/
theorem C9_collision_last_wins
    (id1 id2 n1 n2 role1 role2 portal ns region : String)
    (hcol : name_profile n1 role1 ns = name_profile n2 role2 ns)
    (hdist : (id1, n1, role1) ≠ (id2, n2, role2)) :
    generate_profiles [⟨id1, n1, [role1]⟩, ⟨id2, n2, [role2]⟩]
      portal ns region =
      [("profile " ++ name_profile n2 role2 ns,
        profileSettings portal id2 role2 region)] := by
  simp only [generate_profiles, List.foldl]
  rw [hcol]
  simp [dictSet, keysOf, setInPlace]

/-- C9 witness: two accounts whose distinct names MyAccount and My-Account
hyphenate to the same entry name; the second account's settings win. -/
theorem C9_collision_last_wins_witness :
    name_profile ("MyAccount") ("Admin") ("sso") =
      name_profile ("My-Account") ("Admin") ("sso") ∧
    (("1", "MyAccount", "Admin") : String × String × String) ≠
      ("2", "My-Account", "Admin") ∧
    generate_profiles [⟨"1", "MyAccount", ["Admin"]⟩,
        ⟨"2", "My-Account", ["Admin"]⟩] ("url") ("sso") ("us-east-1") =
      [("profile " ++ name_profile ("My-Account") ("Admin") ("sso"),
        profileSettings ("url") ("2") ("Admin") ("us-east-1"))] :=
  ⟨by decide, by decide,
    C9_collision_last_wins ("1") ("2") ("MyAccount") ("My-Account")
      ("Admin") ("Admin") ("url") ("sso") ("us-east-1")
      (by decide) (by decide)⟩

/-- C6: in the polling loop exactly the authorization-pending outcome backs
off one fixed second and retries the same exchange, with no attempt bound
and no overall timeout: a pending head always continues the loop with one
more second slept, any n pending responses in a row leave the loop still
polling after n slept seconds for every n, any other provider error is
fatal at once regardless of what responses would follow, and a success
returns the token at once. -/
theorem C6_polling_policy (rs : List CreateTokenOutcome) (slept x : Nat)
    (t err : String) :
    pollLoop (CreateTokenOutcome.authorizationPending :: rs) slept =
      pollLoop rs (slept + 1) ∧
    pollLoop (CreateTokenOutcome.otherError err :: rs) slept =
      PollResult.fatal err slept ∧
    pollLoop (CreateTokenOutcome.success t x :: rs) slept =
      PollResult.token t x slept ∧
    (∀ m : Nat,
      pollLoop (List.replicate m CreateTokenOutcome.authorizationPending)
        slept = PollResult.stillPolling (slept + m)) := by
  refine ⟨rfl, rfl, rfl, ?_⟩
  intro m
  induction m generalizing slept with
  | zero => rfl
  | succ j ih =>
    rw [List.replicate_succ]
    show pollLoop
      (List.replicate j CreateTokenOutcome.authorizationPending) (slept + 1) =
      PollResult.stillPolling (slept + (j + 1))
    rw [ih]
    congr 1
    omega

/-- C4 counterexample: cache content that does not parse makes load raise
the parse error rather than return absent, since only AssertionError and
FileNotFoundError are caught. -/
theorem C4_counterexample_malformed_raises :
    get_cached_token CacheFile.malformed 0 = LoadResult.raised ∧
    get_cached_token CacheFile.malformed 0 ≠ LoadResult.absent := by
  decide

/-- C4 (amended): load returns the cached token exactly when the cache file
exists, parses with both fields present, and records an expiry strictly in
the future; it returns absent on a missing file or a non-future expiry; but
malformed content - unparseable JSON or a missing field - raises instead of
returning absent. -/
theorem C4_cache_load_behavior (e now : Int) (t : String)
    (tok : Option String) :
    get_cached_token CacheFile.missing now = LoadResult.absent ∧
    get_cached_token CacheFile.malformed now = LoadResult.raised ∧
    (e > now →
      get_cached_token (CacheFile.record (some e) (some t)) now =
        LoadResult.found t) ∧
    (e ≤ now →
      get_cached_token (CacheFile.record (some e) tok) now =
        LoadResult.absent) ∧
    get_cached_token (CacheFile.record none (some t)) now =
      LoadResult.raised ∧
    (e > now →
      get_cached_token (CacheFile.record (some e) none) now =
        LoadResult.raised) := by
  refine ⟨rfl, rfl, ?_, ?_, rfl, ?_⟩
  · intro h
    simp [get_cached_token, h]
  · intro h
    simp [get_cached_token, show ¬e > now by omega]
  · intro h
    simp [get_cached_token, h]

/-- C4 witness: a fresh token is returned one instant before expiry and
absent at the expiry instant itself. -/
theorem C4_cache_load_behavior_witness :
    ((5 : Int) > 3) ∧ ((3 : Int) ≤ 3) ∧
    get_cached_token (CacheFile.record (some 5) (some "tok")) 3 =
      LoadResult.found "tok" ∧
    get_cached_token (CacheFile.record (some 3) (some "tok")) 3 =
      LoadResult.absent :=
  ⟨by decide, by decide,
    (C4_cache_load_behavior 5 3 ("tok") (some "tok")).2.2.1 (by decide),
    (C4_cache_load_behavior 3 3 ("tok") (some "tok")).2.2.2.1 (by decide)⟩

/-- C3: the persist step opens the store with mode w and writes into it
directly - no temporary file, no rename - so while a completed write does
fully replace the contents, a write interrupted after four characters
leaves the truncated prefix of the new content on disk in place of the
pre-run contents; the backup sibling still exists.  This contradicts the
claimed temp-file-then-rename atomicity at this concrete failing input. -/
theorem C3_truncate_write_not_atomic :
    (persistStore [("config", "[profile old]"), ("config.bak", "[profile old]")]
      ("config") ("[profile sso-new]") WriteAttempt.ok).1 =
      [("config", "[profile sso-new]"), ("config.bak", "[profile old]")] ∧
    alookup ("config")
      (persistStore [("config", "[profile old]"), ("config.bak", "[profile old]")]
        ("config") ("[profile sso-new]") (WriteAttempt.failAfter 4)).1 =
      some "[pro" ∧
    alookup ("config")
      (persistStore [("config", "[profile old]"), ("config.bak", "[profile old]")]
        ("config") ("[profile sso-new]") (WriteAttempt.failAfter 4)).1 ≠
      some "[profile old]" ∧
    alookup ("config.bak")
      (persistStore [("config", "[profile old]"), ("config.bak", "[profile old]")]
        ("config") ("[profile sso-new]") (WriteAttempt.failAfter 4)).1 =
      some "[profile old]" := by
  decide

/-- Body that raises, with no environment effect of its own. -/
def raiseBody (e : Env) : BodyOutcome Unit := BodyOutcome.raised ("boom") e

/-- Body that returns normally, with no environment effect of its own. -/
def okBody (e : Env) : BodyOutcome Unit := BodyOutcome.ok () e

/-- C7: the guard pops the AWS variables and restores them after the bare
yield, so restoration happens on the normal path; but with no try-finally
around the yield, a body that raises skips the restore loop entirely and
the previously present AWS_PROFILE is gone from the environment after the
guard exits, contradicting restoration on every exit path. -/
theorem C7_restore_skipped_on_exception :
    unset_aws_env [("AWS_PROFILE", "sandbox"), ("HOME", "h")] okBody =
      BodyOutcome.ok () [("HOME", "h"), ("AWS_PROFILE", "sandbox")] ∧
    unset_aws_env [("AWS_PROFILE", "sandbox"), ("HOME", "h")] raiseBody =
      BodyOutcome.raised ("boom") [("HOME", "h")] ∧
    alookup ("AWS_PROFILE") [("HOME", "h")] = none := by
  decide

end AwsSsoConfig
